import Mathlib

/-!
Verification development for the actix-cbor crate: a CBOR request/response
body codec layer for actix-web.  The crate consists of a streaming,
size-policed body accumulator (`CborBody`), a per-route configuration value
(`CborConfig`), an error taxonomy (`CborPayloadError`), the extractor
`Cbor::from_request`, the responder `Cbor::respond_to`, and a response
builder extension (`HttpResponseBuilderExt::cbor` / `cbor2`).

The shallow embedding below models the byte stream as a list of chunk
items, bytes as natural numbers, and the asynchronous pull loop of the
accumulator as a structurally recursive function that additionally reports
how many chunks it consumed.  The files `body.rs`, `config.rs` and
`error.rs` of the crate are not available; the definitions that embed them
are marked `Modelled from the spec:` and follow the specification text
(section 4.2, 4.3 and 7) together with the behaviour pinned down by the
crate tests in `tests.rs`.
-/

namespace ActixCbor

/-- Error taxonomy of the crate (`CborPayloadError` in `error.rs`).
Modelled from the spec: tagged variant, one of `ContentType`, `Overflow`,
`Payload` (underlying stream fault), `Deserialize` (underlying codec
fault), `Serialize` (response path only).  The underlying faults are kept
opaque as natural numbers. -/
inductive CborPayloadError where
  | overflow : CborPayloadError
  | contentType : CborPayloadError
  | payload : Nat → CborPayloadError
  | deserialize : Nat → CborPayloadError
  | serialize : Nat → CborPayloadError
deriving DecidableEq, Repr

/-- One event produced by the chunked byte source: either a data chunk
(a byte sequence of arbitrary length) or a fault reported by the
underlying source.  End-of-stream is the end of the event list. -/
inductive ChunkItem where
  | chunk : List Nat → ChunkItem
  | fault : Nat → ChunkItem
deriving DecidableEq, Repr

/-- Length contributed by a chunk item to the running byte total. -/
def chunkLen : ChunkItem → Nat
  | .chunk bs => bs.length
  | .fault _ => 0

/-- Whether a chunk item is a data chunk (not a source fault). -/
def isData : ChunkItem → Bool
  | .chunk _ => true
  | .fault _ => false

/-- Cumulative byte length of a chunk sequence. -/
def sumLen (l : List ChunkItem) : Nat :=
  (l.map chunkLen).sum

/-- Mutable state of the size-policed accumulator: the buffer accumulated
so far and the running byte counter (`buffer` and `bytes_read` in
`body.rs`). -/
structure AccState where
  buffer : List Nat
  bytes_read : Nat
deriving DecidableEq, Repr

/-- Modelled from the spec: one iteration of the accumulator loop of
`CborBody` (missing `body.rs`), spec section 4.3 steps 3 and 5.  A source
fault fails with `Payload`; a data chunk is appended to the buffer,
`bytes_read` is incremented by the chunk length, and if the running total
now exceeds the limit the loop fails with `Overflow`. -/
def accumStep (limit : Nat) (st : AccState) : ChunkItem →
    Except CborPayloadError AccState
  | .fault e => .error (.payload e)
  | .chunk bs =>
      if limit < st.bytes_read + bs.length then .error .overflow
      else .ok ⟨st.buffer ++ bs, st.bytes_read + bs.length⟩

/-- Modelled from the spec: the accumulator pull loop of `CborBody`
(missing `body.rs`), spec section 4.3 steps 2-5, instrumented with the
number of chunks consumed from the source.  On end-of-stream the completed
buffer is yielded; otherwise one step is taken and, on success, the loop
continues on the rest of the stream. -/
def accumRun (limit : Nat) (st : AccState) :
    List ChunkItem → Except CborPayloadError (List Nat) × Nat
  | [] => (.ok st.buffer, 0)
  | item :: rest =>
      match accumStep limit st item with
      | .error e => (.error e, 1)
      | .ok st2 =>
          let r := accumRun limit st2 rest
          (r.1, r.2 + 1)

/-- All accumulator states at which the loop yields control back to its
caller: the state right before each request for a next chunk, and the
state at the terminal yield.  After a failing step there is no further
yield (the error is returned). -/
def accumStates (limit : Nat) (st : AccState) :
    List ChunkItem → List AccState
  | [] => [st]
  | item :: rest =>
      st :: (match accumStep limit st item with
             | .error _ => []
             | .ok st2 => accumStates limit st2 rest)

/-- The slice of an incoming HTTP request that `CborBody` consumes: the
declared media type (the Content-Type header, absent when the header is
missing), the declared total length (the Content-Length header), and the
chunked byte source. -/
structure Request where
  contentType : Option String
  contentLength : Option Nat
  chunks : List ChunkItem

/-- Effective content-type predicate: the configured custom predicate when
one is present, otherwise the default exact match against the canonical
media type `application/cbor` (spec section 4.2 and 6). -/
def predOf (pred : Option (String → Bool)) (t : String) : Bool :=
  match pred with
  | some p => p t
  | none => t == "application/cbor"

/-- Modelled from the spec: the ContentTypeGate of `CborBody::new` (missing
`body.rs`), spec section 4.2.  Accepts exactly when a media type is
declared and the effective predicate returns true for it. -/
def contentTypeOk (pred : Option (String → Bool)) :
    Option String → Bool
  | none => false
  | some t => predOf pred t

/-- Modelled from the spec: accumulation followed by the TypedCodec decode
boundary (spec section 4.4): drain the source, then decode the completed
buffer, wrapping a codec fault in `Deserialize`.  The decoder is a
parameter, as `CborBody` is generic over the target type. -/
def accDecode {α : Type} (decode : List Nat → Except Nat α) (limit : Nat)
    (chunks : List ChunkItem) : Except CborPayloadError α × Nat :=
  match accumRun limit ⟨[], 0⟩ chunks with
  | (.error e, n) => (.error e, n)
  | (.ok buf, n) =>
      match decode buf with
      | .ok v => (.ok v, n)
      | .error e => (.error (.deserialize e), n)

/-- Modelled from the spec: the declared-length fast path of `CborBody`
(missing `body.rs`), spec section 4.3 step 1, followed by the accumulate
and decode loop.  When the declared total length already exceeds the
limit, fail with `Overflow` without requesting any chunk. -/
def processBody {α : Type} (decode : List Nat → Except Nat α) (limit : Nat)
    (req : Request) : Except CborPayloadError α × Nat :=
  match req.contentLength with
  | some len =>
      if limit < len then (.error .overflow, 0)
      else accDecode decode limit req.chunks
  | none => accDecode decode limit req.chunks

/-- Modelled from the spec: the complete behaviour of the `CborBody`
future (missing `body.rs`): the synchronous content-type gate runs first,
rejecting with `ContentType` before any chunk is requested; then the
declared-length fast path and the accumulator loop run, and the final
buffer is decoded.  The second component counts the chunks requested from
the source. -/
def cborBodyRun {α : Type} (decode : List Nat → Except Nat α) (limit : Nat)
    (pred : Option (String → Bool)) (req : Request) :
    Except CborPayloadError α × Nat :=
  if contentTypeOk pred req.contentType then processBody decode limit req
  else (.error .contentType, 0)

/-- Default payload size limit of `CborConfig` (spec section 3: 256 KiB). -/
def defaultLimit : Nat := 262144

/-- Application-level error surfaced by the extractor, as observed by the
framework: an HTTP status code and a reason string
(`actix_web::Error` restricted to what the crate produces). -/
structure AppError where
  status : Nat
  reason : String
deriving DecidableEq, Repr

/-- Modelled from the spec: the configuration value `CborConfig` (missing
`config.rs`): the size limit, the optional content-type predicate and the
optional custom error handler (spec section 3). -/
structure CborConfig where
  limit : Nat := defaultLimit
  content_type : Option (String → Bool) := none
  err_handler : Option (CborPayloadError → Request → AppError) := none

/-- Modelled from the spec: the default error mapping of
`CborPayloadError` into a framework error (missing `error.rs`), spec
section 7: every extraction fault maps to a client-error response with a
short, stable, human-readable reason string unique per fault kind.  The
`Overflow` and `ContentType` strings are pinned by the crate tests. -/
def defaultError : CborPayloadError → AppError
  | .overflow => ⟨400, "Cbor payload size is bigger than allowed"⟩
  | .contentType => ⟨400, "Content type error"⟩
  | .payload _ => ⟨400, "Error that occur during reading payload"⟩
  | .deserialize _ => ⟨400, "Cbor deserialize error"⟩
  | .serialize _ => ⟨400, "Cbor serialize error"⟩

/-- Carrier type of the extractor (`Cbor<T>` in `lib.rs`). -/
structure Cbor (α : Type) where
  val : α
deriving DecidableEq, Repr

/-- Embedding of `Cbor::from_request` (`lib.rs` lines 141-168): run the
`CborBody` future with the resolved limit and content-type predicate; on
success wrap the value; on failure invoke the custom error handler when
one is configured, surfacing exactly its return value, otherwise apply the
default error mapping.  The second component counts the invocations of the
custom error handler. -/
def from_request {α : Type} (decode : List Nat → Except Nat α)
    (cfg : CborConfig) (req : Request) :
    Except AppError (Cbor α) × Nat :=
  match (cborBodyRun decode cfg.limit cfg.content_type req).1 with
  | .ok d => (.ok ⟨d⟩, 0)
  | .error e =>
      match cfg.err_handler with
      | some h => (.error (h e req), 1)
      | none => (.error (defaultError e), 0)

/-- An HTTP response as the crate builds it: status code, header map,
optional custom reason phrase and byte body. -/
structure HttpResponse where
  status : Nat
  headers : List (String × String)
  reason : Option String
  body : List Nat
deriving DecidableEq, Repr

/-- Embedding of the `Responder` impl for `Cbor<T>` (`lib.rs` lines
116-131), taking the result of `serde_cbor::to_vec(&self.0)` as input: on
success build a status 200 response with content type `application/cbor`
and the encoded body; on failure build a plain internal-server-error
response with no custom reason and an empty body. -/
def respond_to (ser : Except Nat (List Nat)) : HttpResponse :=
  match ser with
  | .ok body => ⟨200, [("content-type", "application/cbor")], none, body⟩
  | .error _ => ⟨500, [], none, []⟩

/-- Builder state of `HttpResponseBuilder`: the status code, the headers
inserted so far and the optional custom reason phrase. -/
structure HttpResponseBuilder where
  status : Nat
  headers : List (String × String)
  reason : Option String
deriving DecidableEq, Repr

/-- Embedding of `HttpResponseBuilder::insert_header`: insert a header,
replacing any previous header with the same name. -/
def insert_header (b : HttpResponseBuilder) (k v : String) :
    HttpResponseBuilder :=
  ⟨b.status, (k, v) :: b.headers.filter (fun p => p.1 != k), b.reason⟩

/-- Embedding of `HttpResponseBuilderExt::cbor2`
(`http_response_builder_ext.rs` lines 23-36), taking the result of
`serde_cbor::to_vec(value)` as input: on success insert the
`application/cbor` content type into the builder and finish it with the
encoded body; on failure discard the builder and produce a fresh
internal-server-error response with the fixed reason
`unable to serialize cbor.` and an empty body. -/
def cbor2 (b : HttpResponseBuilder) (ser : Except Nat (List Nat)) :
    HttpResponse :=
  match ser with
  | .ok body =>
      let b2 := insert_header b "content-type" "application/cbor"
      ⟨b2.status, b2.headers, b2.reason, body⟩
  | .error _ => ⟨500, [], some "unable to serialize cbor.", []⟩

/-- Embedding of `HttpResponseBuilderExt::cbor`
(`http_response_builder_ext.rs` lines 19-21): the by-value entry point,
defined as a delegation to the by-reference `cbor2`. -/
def cbor (b : HttpResponseBuilder) (ser : Except Nat (List Nat)) :
    HttpResponse :=
  cbor2 b ser

/-- Big-endian base-256 encoding of `n` on exactly `k` bytes (the
multi-byte argument encoding of RFC 7049, as produced by `serde_cbor`). -/
def encodeBE : Nat → Nat → List Nat
  | 0, _ => []
  | k + 1, n => n / 256 ^ k :: encodeBE k (n % 256 ^ k)

/-- Big-endian base-256 decoding of exactly `k` bytes, returning the value
and the unconsumed tail. -/
def decodeBE : Nat → List Nat → Option (Nat × List Nat)
  | 0, bs => some (0, bs)
  | _ + 1, [] => none
  | k + 1, b :: bs => (decodeBE k bs).map (fun p => (b * 256 ^ k + p.1, p.2))

/-- Canonical CBOR head for major type `m` and argument `n`: the shortest
form among the immediate (argument below 24) and the 1, 2, 4 and 8 byte
argument encodings (RFC 7049 section 2.1, as produced by `serde_cbor`). -/
def encodeHead (m n : Nat) : List Nat :=
  if n < 24 then [32 * m + n]
  else if n < 256 then (32 * m + 24) :: encodeBE 1 n
  else if n < 65536 then (32 * m + 25) :: encodeBE 2 n
  else if n < 4294967296 then (32 * m + 26) :: encodeBE 4 n
  else (32 * m + 27) :: encodeBE 8 n

/-- Decode a CBOR head: split the initial byte into major type and
additional information and read the argument bytes it announces. -/
def decodeHead : List Nat → Option (Nat × Nat × List Nat)
  | [] => none
  | b :: bs =>
      if b % 32 < 24 then some (b / 32, b % 32, bs)
      else if b % 32 = 24 then (decodeBE 1 bs).map (fun p => (b / 32, p.1, p.2))
      else if b % 32 = 25 then (decodeBE 2 bs).map (fun p => (b / 32, p.1, p.2))
      else if b % 32 = 26 then (decodeBE 4 bs).map (fun p => (b / 32, p.1, p.2))
      else if b % 32 = 27 then (decodeBE 8 bs).map (fun p => (b / 32, p.1, p.2))
      else none

/-- Scalar CBOR values of the fragment exercised by the crate: unsigned
integers (major 0), negative integers (major 1, `nint n` denotes
`-(n + 1)`) and UTF-8 text strings given by their bytes (major 3). -/
inductive CborScalar where
  | uint : Nat → CborScalar
  | nint : Nat → CborScalar
  | text : List Nat → CborScalar
deriving DecidableEq, Repr

/-- CBOR values of the fragment exercised by the crate: scalars and maps
with text keys and scalar values (major 5) — the shape `serde_cbor` gives
to the structs deserialized by the crate tests. -/
inductive CborValue where
  | scalar : CborScalar → CborValue
  | map : List (List Nat × CborScalar) → CborValue
deriving DecidableEq, Repr

/-- Encode a scalar value. -/
def encScalar : CborScalar → List Nat
  | .uint n => encodeHead 0 n
  | .nint n => encodeHead 1 n
  | .text s => encodeHead 3 s.length ++ s

/-- Encode one map entry: the key as a text string, then the value. -/
def encEntry (e : List Nat × CborScalar) : List Nat :=
  encScalar (.text e.1) ++ encScalar e.2

/-- Encode a value (the model of `serde_cbor::to_vec`). -/
def encValue : CborValue → List Nat
  | .scalar s => encScalar s
  | .map es => encodeHead 5 es.length ++ (es.map encEntry).flatten

/-- Decode a scalar value, returning it with the unconsumed tail. -/
def decScalar (bs : List Nat) : Option (CborScalar × List Nat) :=
  match decodeHead bs with
  | none => none
  | some (m, n, rest) =>
      if m = 0 then some (.uint n, rest)
      else if m = 1 then some (.nint n, rest)
      else if m = 3 then
        if n ≤ rest.length then some (.text (rest.take n), rest.drop n)
        else none
      else none

/-- Decode one map entry: a text key followed by a scalar value. -/
def decEntry (bs : List Nat) : Option ((List Nat × CborScalar) × List Nat) :=
  match decScalar bs with
  | some (.text k, rest) =>
      match decScalar rest with
      | some (v, rest2) => some ((k, v), rest2)
      | none => none
  | _ => none

/-- Decode exactly `k` map entries. -/
def decEntries : Nat → List Nat → Option (List (List Nat × CborScalar) × List Nat)
  | 0, bs => some (([], bs))
  | k + 1, bs =>
      match decEntry bs with
      | none => none
      | some (e, rest) =>
          match decEntries k rest with
          | none => none
          | some (es, rest2) => some (e :: es, rest2)

/-- Decode a value, returning it with the unconsumed tail. -/
def decValue (bs : List Nat) : Option (CborValue × List Nat) :=
  match decodeHead bs with
  | none => none
  | some (m, n, rest) =>
      if m = 5 then (decEntries n rest).map (fun p => (.map p.1, p.2))
      else (decScalar bs).map (fun p => (.scalar p.1, p.2))

/-- Model of `serde_cbor::to_vec` on the fragment. -/
def to_vec (v : CborValue) : List Nat := encValue v

/-- Model of `serde_cbor::from_slice` on the fragment: decode one value
and require the whole input to be consumed. -/
def from_slice (bs : List Nat) : Except Nat CborValue :=
  match decValue bs with
  | some (v, []) => .ok v
  | some (_, _ :: _) => .error 1
  | none => .error 0

/-- Well-formedness of a scalar: every CBOR argument fits the largest
argument encoding (8 bytes) and text bytes are bytes. -/
def scalarWF : CborScalar → Prop
  | .uint n => n < 2 ^ 64
  | .nint n => n < 2 ^ 64
  | .text s => s.length < 2 ^ 64 ∧ ∀ b ∈ s, b < 256

/-- Well-formedness of a value: all arguments fit, keys are byte strings. -/
def valueWF : CborValue → Prop
  | .scalar s => scalarWF s
  | .map es => es.length < 2 ^ 64 ∧
      ∀ e ∈ es, scalarWF (.text e.1) ∧ scalarWF e.2

instance (s : CborScalar) : Decidable (scalarWF s) :=
  match s with
  | .uint n => inferInstanceAs (Decidable (n < 2 ^ 64))
  | .nint n => inferInstanceAs (Decidable (n < 2 ^ 64))
  | .text _ => inferInstanceAs (Decidable (_ ∧ _))

instance (v : CborValue) : Decidable (valueWF v) :=
  match v with
  | .scalar s => inferInstanceAs (Decidable (scalarWF s))
  | .map _ => inferInstanceAs (Decidable (_ ∧ _))

/-- Bytes carried by a chunk item (empty for a fault). -/
def chunkBytes : ChunkItem → List Nat
  | .chunk bs => bs
  | .fault _ => []

theorem sumLen_cons (c : ChunkItem) (l : List ChunkItem) :
    sumLen (c :: l) = chunkLen c + sumLen l := by
  simp [sumLen]

/-- Every state at which the accumulator yields control keeps the running
byte counter within the limit, provided the starting state does. -/
theorem accumStates_le (limit : Nat) :
    ∀ (chunks : List ChunkItem) (st : AccState), st.bytes_read ≤ limit →
      ∀ s ∈ accumStates limit st chunks, s.bytes_read ≤ limit := by
  intro chunks
  induction chunks with
  | nil =>
      intro st h s hs
      simp only [accumStates, List.mem_singleton] at hs
      exact hs ▸ h
  | cons item rest ih =>
      intro st h s hs
      simp only [accumStates, List.mem_cons] at hs
      rcases hs with rfl | hs
      · exact h
      · cases item with
        | fault e => simp [accumStep] at hs
        | chunk bs =>
            by_cases hc : limit < st.bytes_read + bs.length
            · simp [accumStep, hc] at hs
            · simp only [accumStep, if_neg hc] at hs
              exact ih ⟨st.buffer ++ bs, st.bytes_read + bs.length⟩ (by dsimp only; omega) s hs

/-- When the cumulative length of a fault-free chunk sequence drives the
running total past the limit, the accumulator loop fails with `Overflow`
after consuming exactly the shortest prefix whose byte total exceeds the
limit. -/
theorem accumRun_overflow (limit : Nat) :
    ∀ (chunks : List ChunkItem) (st : AccState),
      st.bytes_read ≤ limit →
      chunks.all isData = true →
      limit < st.bytes_read + sumLen chunks →
      ∃ n, accumRun limit st chunks = (.error .overflow, n) ∧
        1 ≤ n ∧ n ≤ chunks.length ∧
        limit < st.bytes_read + sumLen (chunks.take n) ∧
        st.bytes_read + sumLen (chunks.take (n - 1)) ≤ limit := by
  intro chunks
  induction chunks with
  | nil =>
      intro st hle _ hover
      simp [sumLen] at hover
      omega
  | cons item rest ih =>
      intro st hle hdata hover
      rw [List.all_cons, Bool.and_eq_true] at hdata
      obtain ⟨hitem, hrest⟩ := hdata
      cases item with
      | fault e => simp [isData] at hitem
      | chunk bs =>
          by_cases hc : limit < st.bytes_read + bs.length
          · refine ⟨1, ?_, le_refl 1, by simp, ?_, ?_⟩
            · simp [accumRun, accumStep, hc]
            · simpa [sumLen_cons, chunkLen, sumLen] using hc
            · simpa [sumLen] using hle
          · have hsum : sumLen (ChunkItem.chunk bs :: rest) =
                bs.length + sumLen rest := by
              simp [sumLen_cons, chunkLen]
            obtain ⟨n, hrun, hn1, hnlen, hov, hprev⟩ :=
              ih ⟨st.buffer ++ bs, st.bytes_read + bs.length⟩ (by dsimp only; omega) hrest
                (by dsimp only; omega)
            obtain ⟨m, rfl⟩ : ∃ m, n = m + 1 := ⟨n - 1, by omega⟩
            refine ⟨m + 2, ?_, by omega, by simp; omega, ?_, ?_⟩
            · simp only [accumRun, accumStep, if_neg hc]
              rw [hrun]
            · rw [List.take_succ_cons, sumLen_cons]
              simp only [chunkLen]
              dsimp only at hov
              omega
            · have : m + 2 - 1 = m + 1 := by omega
              rw [this, List.take_succ_cons, sumLen_cons]
              simp only [chunkLen]
              simp only [Nat.add_sub_cancel] at hprev
              omega

/-- When every chunk is data and the cumulative length stays within the
limit, the accumulator loop consumes the whole stream and yields the
concatenation of all chunks appended to the starting buffer. -/
theorem accumRun_success (limit : Nat) :
    ∀ (chunks : List ChunkItem) (st : AccState),
      chunks.all isData = true →
      st.bytes_read + sumLen chunks ≤ limit →
      accumRun limit st chunks =
        (.ok (st.buffer ++ (chunks.map chunkBytes).flatten), chunks.length) := by
  intro chunks
  induction chunks with
  | nil =>
      intro st _ _
      simp [accumRun]
  | cons item rest ih =>
      intro st hdata hle
      rw [List.all_cons, Bool.and_eq_true] at hdata
      obtain ⟨hitem, hrest⟩ := hdata
      cases item with
      | fault e => simp [isData] at hitem
      | chunk bs =>
          have hsum : sumLen (ChunkItem.chunk bs :: rest) =
              bs.length + sumLen rest := by
            simp [sumLen_cons, chunkLen]
          have hc : ¬ limit < st.bytes_read + bs.length := by omega
          simp only [accumRun, accumStep, if_neg hc]
          rw [ih ⟨st.buffer ++ bs, st.bytes_read + bs.length⟩ hrest (by dsimp only; omega)]
          simp [chunkBytes, List.append_assoc]

/-- C1 (amended).  For every request accepted by the content-type gate
whose declared length header, when present, does not itself exceed the
limit, if the fault-free chunk sequence has cumulative length above the
limit then extraction fails with `Overflow` exactly at the first chunk
whose appending makes the running total exceed the limit, never later. -/
theorem cbor_body_overflow_at_first_excess {α : Type}
    (decode : List Nat → Except Nat α) (limit : Nat)
    (pred : Option (String → Bool)) (req : Request)
    (hct : contentTypeOk pred req.contentType = true)
    (hlen : ∀ l, req.contentLength = some l → l ≤ limit)
    (hdata : req.chunks.all isData = true)
    (hover : limit < sumLen req.chunks) :
    ∃ n, cborBodyRun decode limit pred req = (.error .overflow, n) ∧
      1 ≤ n ∧ n ≤ req.chunks.length ∧
      limit < sumLen (req.chunks.take n) ∧
      sumLen (req.chunks.take (n - 1)) ≤ limit := by
  obtain ⟨n, hrun, h1, h2, h3, h4⟩ :=
    accumRun_overflow limit req.chunks ⟨[], 0⟩ (Nat.zero_le limit) hdata
      (by dsimp only; omega)
  have hacc : accDecode decode limit req.chunks = (.error .overflow, n) := by
    unfold accDecode
    rw [hrun]
  have hproc : processBody decode limit req = (.error .overflow, n) := by
    rcases hcl : req.contentLength with _ | l
    · simp [processBody, hcl, hacc]
    · have hle : ¬ limit < l := by
        have := hlen l hcl
        omega
      simp [processBody, hcl, hle, hacc]
  refine ⟨n, ?_, h1, h2, by dsimp only at h3; omega, by dsimp only at h4; omega⟩
  simp [cborBodyRun, hct, hproc]

/-- C1 witness: with limit 1 and two one-byte chunks, the loop overflows
exactly at the second chunk. -/
theorem cbor_body_overflow_at_first_excess_witness :
    contentTypeOk none (some "application/cbor") = true ∧
    (∃ n, cborBodyRun from_slice 1 none
        ⟨some "application/cbor", some 1, [.chunk [0], .chunk [0]]⟩ =
          (.error .overflow, n) ∧
      1 ≤ n ∧ n ≤ [ChunkItem.chunk [0], ChunkItem.chunk [0]].length ∧
      1 < sumLen ([ChunkItem.chunk [0], ChunkItem.chunk [0]].take n) ∧
      sumLen ([ChunkItem.chunk [0], ChunkItem.chunk [0]].take (n - 1)) ≤ 1) :=
  ⟨by decide,
   cbor_body_overflow_at_first_excess from_slice 1 none
     ⟨some "application/cbor", some 1, [.chunk [0], .chunk [0]]⟩
     (by decide)
     (fun l hl => by simp at hl; omega)
     (by decide) (by decide)⟩

/-- C1 counterexample: with limit 0, a declared length of 1 and a single
one-byte chunk, extraction does fail with `Overflow` but via the
declared-length fast path, consuming zero chunks — not at the first chunk
whose appending exceeds the limit (no appended prefix exceeds the limit at
the failure point), contradicting the claim read over all declared-length
headers. -/
theorem cbor_body_overflow_precheck_cex :
    ¬ ∀ (n : Nat),
        cborBodyRun from_slice 0 none
            ⟨some "application/cbor", some 1, [.chunk [0]]⟩ =
          (.error .overflow, n) →
        0 < sumLen ([ChunkItem.chunk [0]].take n) := by
  intro h
  have h0 := h 0 rfl
  simp [sumLen] at h0

/-- C2 (amended).  For every request accepted by the content-type gate
whose declared total-length header exceeds the limit, `CborBody` fails
with `Overflow` before requesting any chunk from the source. -/
theorem declared_length_fast_reject {α : Type}
    (decode : List Nat → Except Nat α) (limit : Nat)
    (pred : Option (String → Bool)) (req : Request) (len : Nat)
    (hct : contentTypeOk pred req.contentType = true)
    (hlen : req.contentLength = some len)
    (hover : limit < len) :
    cborBodyRun decode limit pred req = (.error .overflow, 0) := by
  simp [cborBodyRun, processBody, hct, hlen, hover]

/-- C2 witness: limit 100, declared length 200. -/
theorem declared_length_fast_reject_witness :
    contentTypeOk none (some "application/cbor") = true ∧
    cborBodyRun from_slice 100 none ⟨some "application/cbor", some 200, []⟩ =
      (.error .overflow, 0) :=
  ⟨by decide,
   declared_length_fast_reject from_slice 100 none
     ⟨some "application/cbor", some 200, []⟩ 200 (by decide) rfl (by decide)⟩

/-- C2 counterexample: a request with no declared media type and a
declared length above the limit fails with `ContentType`, not `Overflow`
— the content-type gate runs before the declared-length fast path, so the
claim does not hold for every request with an oversized declared
length. -/
theorem declared_length_fast_reject_cex :
    cborBodyRun from_slice 0 none ⟨none, some 1, []⟩ =
        ((.error .contentType : Except CborPayloadError CborValue), 0) ∧
      CborPayloadError.contentType ≠ CborPayloadError.overflow := by
  constructor
  · rfl
  · decide

/-- C3.  For every request whose declared media type is absent or rejected
by the effective content-type predicate, extraction fails with
`ContentType` and zero chunks (hence zero bytes) are read from the
source. -/
theorem content_type_gate_rejects {α : Type}
    (decode : List Nat → Except Nat α) (limit : Nat)
    (pred : Option (String → Bool)) (req : Request)
    (h : req.contentType = none ∨
         ∃ t, req.contentType = some t ∧ predOf pred t = false) :
    cborBodyRun decode limit pred req = (.error .contentType, 0) := by
  have hct : contentTypeOk pred req.contentType = false := by
    rcases h with h | ⟨t, ht, hp⟩
    · rw [h]
      rfl
    · rw [ht]
      exact hp
  simp [cborBodyRun, hct]

/-- C3 witness: a request declaring `application/text` under the default
predicate is rejected with `ContentType` after zero reads. -/
theorem content_type_gate_rejects_witness :
    (some "application/text" = none ∨
      ∃ t, some "application/text" = some t ∧ predOf none t = false) ∧
    cborBodyRun from_slice 100 none
        ⟨some "application/text", some 16, [.chunk [7]]⟩ =
      (.error .contentType, 0) :=
  ⟨Or.inr ⟨"application/text", rfl, by decide⟩,
   content_type_gate_rejects from_slice 100 none
     ⟨some "application/text", some 16, [.chunk [7]]⟩
     (Or.inr ⟨"application/text", rfl, by decide⟩)⟩

/-- C4.  Every state at which the accumulator yields control back to its
caller — before each chunk request and at the terminal yield — satisfies
`bytes_read ≤ limit`: the overflow check runs right after a chunk is
appended, before the next chunk is requested. -/
theorem accumulator_yield_invariant (limit : Nat) (chunks : List ChunkItem)
    (s : AccState) (hs : s ∈ accumStates limit ⟨[], 0⟩ chunks) :
    s.bytes_read ≤ limit :=
  accumStates_le limit chunks ⟨[], 0⟩ (Nat.zero_le limit) s hs

/-- C4 witness: the state after absorbing a two-byte chunk under limit 5
is a yield state and respects the bound. -/
theorem accumulator_yield_invariant_witness :
    (⟨[1, 2], 2⟩ : AccState) ∈ accumStates 5 ⟨[], 0⟩ [.chunk [1, 2]] ∧
    (⟨[1, 2], 2⟩ : AccState).bytes_read ≤ 5 :=
  ⟨by decide,
   accumulator_yield_invariant 5 [.chunk [1, 2]] ⟨[1, 2], 2⟩ (by decide)⟩

/-- Constructor tag of an extraction fault, used to state that the default
mapping is distinct per fault kind. -/
def kindOf : CborPayloadError → Nat
  | .overflow => 0
  | .contentType => 1
  | .payload _ => 2
  | .deserialize _ => 3
  | .serialize _ => 4

/-- C5.  For every failed extraction through `Cbor::from_request`: when a
custom error handler is configured it is invoked exactly once with the
error and the request and its return value is exactly the surfaced
application error; when none is configured the default mapping is applied,
which sends every fault kind to a fixed, distinct client-error (4xx)
response — never a server error. -/
theorem from_request_error_dispatch {α : Type}
    (decode : List Nat → Except Nat α) (cfg : CborConfig) (req : Request)
    (e : CborPayloadError)
    (he : (cborBodyRun decode cfg.limit cfg.content_type req).1 = .error e) :
    (∀ h, cfg.err_handler = some h →
        from_request decode cfg req = (.error (h e req), 1)) ∧
    (cfg.err_handler = none →
        from_request decode cfg req = (.error (defaultError e), 0)) ∧
    (∀ e1, 400 ≤ (defaultError e1).status ∧ (defaultError e1).status < 500) ∧
    (∀ e1 e2, kindOf e1 ≠ kindOf e2 → defaultError e1 ≠ defaultError e2) := by
  refine ⟨?_, ?_, ?_, ?_⟩
  · intro h hh
    unfold from_request
    rw [he, hh]
  · intro hh
    unfold from_request
    rw [he, hh]
  · intro e1
    cases e1 <;> simp [defaultError]
  · intro e1 e2 hk
    cases e1 <;> cases e2 <;> simp_all [kindOf, defaultError]

/-- C5 witness: a request with no declared media type fails with
`ContentType`; a configured handler mapping every fault to a 422 response
is invoked once and its value is surfaced. -/
theorem from_request_error_dispatch_witness :
    ((cborBodyRun from_slice
        (CborConfig.mk 100 none (some fun _ _ => ⟨422, "custom"⟩)).limit
        (CborConfig.mk 100 none (some fun _ _ => ⟨422, "custom"⟩)).content_type
        ⟨none, none, []⟩).1 = .error .contentType) ∧
    (∀ h, (CborConfig.mk 100 none
            (some fun _ _ => (⟨422, "custom"⟩ : AppError))).err_handler = some h →
        from_request from_slice
          (CborConfig.mk 100 none (some fun _ _ => ⟨422, "custom"⟩))
          ⟨none, none, []⟩ = (.error (h .contentType ⟨none, none, []⟩), 1)) :=
  ⟨rfl,
   (from_request_error_dispatch from_slice
      (CborConfig.mk 100 none (some fun _ _ => ⟨422, "custom"⟩))
      ⟨none, none, []⟩ .contentType rfl).1⟩

/-- C7.  For every value of the fragment, the responder produces status
200, the canonical `application/cbor` content type, no custom reason and a
body equal to the canonical encoding of the value. -/
theorem responder_success (v : CborValue) :
    respond_to (.ok (to_vec v)) =
      ⟨200, [("content-type", "application/cbor")], none, to_vec v⟩ :=
  rfl

/-- C8 counterexample: on a serialize failure the builder-extension path
`cbor2` sets the custom reason `unable to serialize cbor.`, so not every
response-production path returns a 500 with no custom reason. -/
theorem serialize_failure_no_reason_cex :
    (cbor2 ⟨200, [], none⟩ (.error 0)).status = 500 ∧
    (cbor2 ⟨200, [], none⟩ (.error 0)).reason = some "unable to serialize cbor." ∧
    (cbor2 ⟨200, [], none⟩ (.error 0)).reason ≠ none := by
  refine ⟨rfl, rfl, ?_⟩
  decide

/-- C8 (amended).  For every serialize failure, the responder path returns
a plain status 500 response with no custom reason and an empty body, and
the builder-extension paths return a status 500 response with the fixed
reason `unable to serialize cbor.`; all three responses are independent of
the underlying fault, so no detail about it is leaked. -/
theorem serialize_failure_responses (e : Nat) (b : HttpResponseBuilder) :
    respond_to (.error e) = ⟨500, [], none, []⟩ ∧
    cbor2 b (.error e) = ⟨500, [], some "unable to serialize cbor.", []⟩ ∧
    cbor b (.error e) = ⟨500, [], some "unable to serialize cbor.", []⟩ :=
  ⟨rfl, rfl, rfl⟩

/-- C10.  The by-value builder entry point `cbor` produces exactly the
response of the by-reference `cbor2` on every builder state and every
serialization result: it is a pure delegation. -/
theorem cbor_delegates_to_cbor2 (b : HttpResponseBuilder)
    (ser : Except Nat (List Nat)) :
    cbor b ser = cbor2 b ser :=
  rfl

theorem decodeBE_encodeBE (k : Nat) :
    ∀ (n : Nat) (rest : List Nat), n < 256 ^ k →
      decodeBE k (encodeBE k n ++ rest) = some (n, rest) := by
  induction k with
  | zero =>
      intro n rest h
      have hn : n = 0 := by
        simpa using h
      subst hn
      simp [encodeBE, decodeBE]
  | succ k ih =>
      intro n rest h
      have hmod : n % 256 ^ k < 256 ^ k := Nat.mod_lt _ (by positivity)
      simp only [encodeBE, List.cons_append, decodeBE, List.append_eq]
      rw [ih (n % 256 ^ k) rest hmod]
      simp [Nat.div_add_mod' n (256 ^ k)]

theorem decodeHead_encodeHead (m n : Nat) (rest : List Nat)
    (h : n < 2 ^ 64) :
    decodeHead (encodeHead m n ++ rest) = some (m, n, rest) := by
  have h8 : (256 : Nat) ^ 8 = 2 ^ 64 := by norm_num
  unfold encodeHead
  split_ifs with h1 h2 h3 h4
  · have e1 : (32 * m + n) % 32 = n := by omega
    have e2 : (32 * m + n) / 32 = m := by omega
    simp [decodeHead, e1, e2, h1]
  · have e1 : (32 * m + 24) % 32 = 24 := by omega
    have e2 : (32 * m + 24) / 32 = m := by omega
    have hb : n < 256 ^ 1 := by simpa using h2
    simp [decodeHead, e1, e2, decodeBE_encodeBE 1 n rest hb]
  · have e1 : (32 * m + 25) % 32 = 25 := by omega
    have e2 : (32 * m + 25) / 32 = m := by omega
    have hb : n < 256 ^ 2 := by norm_num; omega
    simp [decodeHead, e1, e2, decodeBE_encodeBE 2 n rest hb]
  · have e1 : (32 * m + 26) % 32 = 26 := by omega
    have e2 : (32 * m + 26) / 32 = m := by omega
    have hb : n < 256 ^ 4 := by norm_num; omega
    simp [decodeHead, e1, e2, decodeBE_encodeBE 4 n rest hb]
  · have e1 : (32 * m + 27) % 32 = 27 := by omega
    have e2 : (32 * m + 27) / 32 = m := by omega
    have hb : n < 256 ^ 8 := by omega
    simp [decodeHead, e1, e2, decodeBE_encodeBE 8 n rest hb]

theorem decScalar_encScalar (s : CborScalar) (rest : List Nat)
    (h : scalarWF s) :
    decScalar (encScalar s ++ rest) = some (s, rest) := by
  cases s with
  | uint n =>
      unfold decScalar encScalar
      rw [decodeHead_encodeHead 0 n rest h]
      simp
  | nint n =>
      unfold decScalar encScalar
      rw [decodeHead_encodeHead 1 n rest h]
      simp
  | text s =>
      obtain ⟨h1, _⟩ := h
      unfold decScalar encScalar
      rw [List.append_assoc, decodeHead_encodeHead 3 s.length (s ++ rest) h1]
      simp [List.take_left, List.drop_left]

theorem decEntry_encEntry (e : List Nat × CborScalar) (rest : List Nat)
    (hk : scalarWF (.text e.1)) (hv : scalarWF e.2) :
    decEntry (encEntry e ++ rest) = some (e, rest) := by
  unfold encEntry decEntry
  rw [List.append_assoc, decScalar_encScalar (.text e.1) _ hk]
  simp [decScalar_encScalar e.2 rest hv]

theorem decEntries_encEntries (es : List (List Nat × CborScalar)) :
    ∀ (rest : List Nat), (∀ e ∈ es, scalarWF (.text e.1) ∧ scalarWF e.2) →
      decEntries es.length ((es.map encEntry).flatten ++ rest) =
        some (es, rest) := by
  induction es with
  | nil =>
      intro rest _
      simp [decEntries]
  | cons e es ih =>
      intro rest h
      have he := h e (List.mem_cons_self e es)
      simp only [List.map_cons, List.flatten_cons, List.length_cons,
        List.append_assoc]
      unfold decEntries
      rw [decEntry_encEntry e _ he.1 he.2]
      simp [ih rest (fun x hx => h x (List.mem_cons_of_mem e hx))]

theorem decValue_encValue (v : CborValue) (rest : List Nat)
    (h : valueWF v) :
    decValue (encValue v ++ rest) = some (v, rest) := by
  cases v with
  | scalar s =>
      have hds := decScalar_encScalar s rest h
      unfold decValue
      cases s with
      | uint n =>
          rw [show encValue (.scalar (.uint n)) ++ rest =
              encodeHead 0 n ++ rest from rfl,
            decodeHead_encodeHead 0 n rest h]
          simpa [encValue, encScalar] using congrArg (Option.map
            (fun p => (CborValue.scalar p.1, p.2))) hds
      | nint n =>
          rw [show encValue (.scalar (.nint n)) ++ rest =
              encodeHead 1 n ++ rest from rfl,
            decodeHead_encodeHead 1 n rest h]
          simpa [encValue, encScalar] using congrArg (Option.map
            (fun p => (CborValue.scalar p.1, p.2))) hds
      | text s =>
          obtain ⟨h1, _⟩ := h
          rw [show encValue (.scalar (.text s)) ++ rest =
              encodeHead 3 s.length ++ (s ++ rest) from by
                simp [encValue, encScalar],
            decodeHead_encodeHead 3 s.length (s ++ rest) h1]
          have : encodeHead 3 s.length ++ (s ++ rest) =
              encValue (.scalar (.text s)) ++ rest := by
            simp [encValue, encScalar]
          rw [this]
          simpa using congrArg (Option.map
            (fun p => (CborValue.scalar p.1, p.2))) hds
  | map es =>
      obtain ⟨h1, h2⟩ := h
      unfold decValue
      rw [show encValue (.map es) ++ rest =
          encodeHead 5 es.length ++ ((es.map encEntry).flatten ++ rest) from by
            simp [encValue],
        decodeHead_encodeHead 5 es.length _ h1]
      simp [decEntries_encEntries es rest h2]

/-- C6.  Round-trip law of the codec on the modelled fragment: for every
well-formed value, encoding with `to_vec` and decoding the produced buffer
with `from_slice` yields the original value. -/
theorem encode_decode_roundtrip (v : CborValue) (h : valueWF v) :
    from_slice (to_vec v) = .ok v := by
  have hv := decValue_encValue v [] h
  rw [List.append_nil] at hv
  unfold from_slice to_vec
  rw [hv]

/-- C6 witness: the value of the crate tests — the map with entries
`name: "test"` and `number: 7` — round-trips. -/
theorem encode_decode_roundtrip_witness :
    valueWF (.map [([110, 97, 109, 101], .text [116, 101, 115, 116]),
      ([110, 117, 109, 98, 101, 114], .uint 7)]) ∧
    from_slice (to_vec (.map [([110, 97, 109, 101], .text [116, 101, 115, 116]),
      ([110, 117, 109, 98, 101, 114], .uint 7)])) =
      .ok (.map [([110, 97, 109, 101], .text [116, 101, 115, 116]),
      ([110, 117, 109, 98, 101, 114], .uint 7)]) :=
  ⟨by decide,
   encode_decode_roundtrip
     (.map [([110, 97, 109, 101], .text [116, 101, 115, 116]),
       ([110, 117, 109, 98, 101, 114], .uint 7)]) (by decide)⟩

/-- C9.  For every request declaring media type `text/plain`, extraction
under a configured predicate that accepts `text/plain` succeeds whenever
the body is fault-free, within the limit (header and running total) and
decodes — even though `text/plain` differs from the canonical media type
`application/cbor`. -/
theorem custom_content_type_extraction {α : Type}
    (decode : List Nat → Except Nat α) (limit : Nat) (p : String → Bool)
    (req : Request) (v : α)
    (hct : req.contentType = some "text/plain")
    (hp : p "text/plain" = true)
    (hlen : ∀ l, req.contentLength = some l → l ≤ limit)
    (hdata : req.chunks.all isData = true)
    (hsum : sumLen req.chunks ≤ limit)
    (hdec : decode (req.chunks.map chunkBytes).flatten = .ok v) :
    cborBodyRun decode limit (some p) req = (.ok v, req.chunks.length) ∧
      "text/plain" ≠ "application/cbor" := by
  refine ⟨?_, by decide⟩
  have hgate : contentTypeOk (some p) req.contentType = true := by
    rw [hct]
    exact hp
  have hacc : accDecode decode limit req.chunks = (.ok v, req.chunks.length) := by
    unfold accDecode
    rw [accumRun_success limit req.chunks ⟨[], 0⟩ hdata (by dsimp only; omega)]
    simp [hdec]
  have hproc : processBody decode limit req = (.ok v, req.chunks.length) := by
    rcases hcl : req.contentLength with _ | l
    · simp [processBody, hcl, hacc]
    · have hle : ¬ limit < l := by
        have := hlen l hcl
        omega
      simp [processBody, hcl, hle, hacc]
  simp [cborBodyRun, hgate, hproc]

/-- C9 witness: the crate-test scenario — declared type `text/plain`,
predicate accepting exactly `text/plain`, declared length 16 and the
encoding of the map `name: "test", number: 7` as the single chunk —
extracts successfully. -/
theorem custom_content_type_extraction_witness :
    (fun s => s == "text/plain") "text/plain" = true ∧
    cborBodyRun from_slice 262144 (some fun s => s == "text/plain")
        ⟨some "text/plain", some 16,
          [.chunk (to_vec (.map [([110, 97, 109, 101], .text [116, 101, 115, 116]),
            ([110, 117, 109, 98, 101, 114], .uint 7)]))]⟩ =
      (.ok (.map [([110, 97, 109, 101], .text [116, 101, 115, 116]),
        ([110, 117, 109, 98, 101, 114], .uint 7)]), 1) ∧
    "text/plain" ≠ "application/cbor" :=
  ⟨rfl,
   (custom_content_type_extraction from_slice 262144
      (fun s => s == "text/plain")
      ⟨some "text/plain", some 16,
        [.chunk (to_vec (.map [([110, 97, 109, 101], .text [116, 101, 115, 116]),
          ([110, 117, 109, 98, 101, 114], .uint 7)]))]⟩
      (.map [([110, 97, 109, 101], .text [116, 101, 115, 116]),
        ([110, 117, 109, 98, 101, 114], .uint 7)])
      rfl rfl (fun l hl => by simp at hl; omega) (by decide) (by decide)
      rfl).1,
   (custom_content_type_extraction from_slice 262144
      (fun s => s == "text/plain")
      ⟨some "text/plain", some 16,
        [.chunk (to_vec (.map [([110, 97, 109, 101], .text [116, 101, 115, 116]),
          ([110, 117, 109, 98, 101, 114], .uint 7)]))]⟩
      (.map [([110, 97, 109, 101], .text [116, 101, 115, 116]),
        ([110, 117, 109, 98, 101, 114], .uint 7)])
      rfl rfl (fun l hl => by simp at hl; omega) (by decide) (by decide)
      rfl).2⟩

end ActixCbor
